import Mathlib

/-!
Verification of the gmail-cleaner domain pipeline (`src/app/collector.py`,
`src/app/cleaner.py`, `src/app/models.py`).

The remote Gmail capability is modelled as oracles: a function giving the
outcome of each `threads().trash` call, a function giving the outcome of each
`threads().get` metadata fetch, and a list of page-fetch outcomes for
`threads().list`.  Progress callbacks are modelled as an event log, and the
cooperative `interrupted` flag as a function consulted (with a monotone clock)
at exactly the points where the Python code reads the flag.
-/

set_option autoImplicit false

namespace GmailCleaner

/-! ## String utilities -/

/-- Python's `s[:n] + "..." if len(s) > n else s` display truncation used for
subjects in progress events. -/
def truncateDisplay (n : Nat) (s : String) : String :=
  if s.length > n then String.mk (s.data.take n) ++ "..." else s

/-- Python's `str.lower()`, modelled characterwise (ASCII case folding). -/
def toLowerStr (s : String) : String :=
  String.mk (s.data.map Char.toLower)

/-- Python's `str.strip()`: drop leading and trailing whitespace. -/
def pyStrip (s : String) : String :=
  String.mk (((s.data.dropWhile Char.isWhitespace).reverse.dropWhile Char.isWhitespace).reverse)

/-- Python's `str.split(sep)` for a one-character separator. -/
def splitOnChar (sep : Char) : List Char → List (List Char)
  | [] => [[]]
  | c :: cs =>
    if c = sep then [] :: splitOnChar sep cs
    else
      match splitOnChar sep cs with
      | [] => [[c]]
      | g :: gs => (c :: g) :: gs

/-- The characters strictly before the first `>` of the list, or `none` when no
`>` occurs (the candidate capture once a `<` has been consumed, for the regex
`<([^>]+)>` used by `extract_email_address`). -/
def beforeGt : List Char → Option (List Char)
  | [] => none
  | c :: cs =>
    if c = '>' then some []
    else
      match beforeGt cs with
      | some g => some (c :: g)
      | none => none

/-- Leftmost match of the regex `<([^>]+)>` over a character list: the group
captured between the first `<` that is followed by a non-empty `>`-free run and
a closing `>`. -/
def angleGroup : List Char → Option (List Char)
  | [] => none
  | c :: cs =>
    if c = '<' then
      match beforeGt cs with
      | some g => if g.isEmpty then angleGroup cs else some g
      | none => angleGroup cs
    else angleGroup cs

/-- `DomainCollector.extract_email_address` (src/app/collector.py lines
296-302): the first `<...>` group lowercased when the regex `<([^>]+)>`
matches, otherwise the whole trimmed string lowercased. -/
def extract_email_address (sender : String) : String :=
  match angleGroup sender.data with
  | some g => toLowerStr (String.mk g)
  | none => toLowerStr (pyStrip sender)

/-- `DomainCollector.extract_domain` (src/app/collector.py lines 304-309):
`email.split('@')[1].lower()` when `'@' in email`, else `''`. -/
def extract_domain (email : String) : String :=
  if '@' ∈ email.data then
    toLowerStr (String.mk ((splitOnChar '@' email.data).getD 1 []))
  else ""

/-- The spec's wording of domain extraction: "the substring after the first
`@`, lowercased; if no `@` is present, the domain is empty".  Used only to
compare the spec sentence against `extract_domain`. -/
def specExtractDomain (email : String) : String :=
  if '@' ∈ email.data then
    toLowerStr (String.mk ((email.data.dropWhile (fun c => c ≠ '@')).tail))
  else ""

/-! ## Shared data model (src/app/models.py) -/

/-- `ThreadMetadata` (src/app/models.py lines 9-17). -/
structure ThreadMetadata where
  thread_id : String
  domain : String
  subject : String
  sender : String
  message_count : Nat
  label_ids : List String
deriving Repr, DecidableEq

/-- `CollectionConfig` (src/app/models.py lines 28-34).  The Python `Set`s are
modelled as lists (only membership is ever used). -/
structure CollectionConfig where
  limit : Option Nat := none
  excluded_domains : List String := []
  use_label_protection : Bool := true
  protected_label_ids : Option (List String) := none
deriving Repr, DecidableEq

/-- `CleanupConfig` (src/app/models.py lines 37-41). -/
structure CleanupConfig where
  dry_run : Bool := true
  limit : Option Nat := none
deriving Repr, DecidableEq

/-- Python truthiness of `config.limit and total >= config.limit`: both `None`
and `0` are falsy, so only a positive limit can stop a loop. -/
def limitReached (limit : Option Nat) (total : Nat) : Bool :=
  match limit with
  | none => false
  | some l => decide (0 < l) && decide (l ≤ total)

/-! ## Filtering (src/app/collector.py lines 206-250) -/

/-- Python's `str.startswith(pre)`, modelled on the character lists. -/
def pyStartsWith (s pre : String) : Bool :=
  pre.data.isPrefixOf s.data

/-- `DomainCollector._is_protected` (src/app/collector.py lines 208-234). -/
def is_protected (cfg : CollectionConfig) (label_ids : List String) : Bool :=
  if label_ids.contains "IMPORTANT" || label_ids.contains "STARRED" then true
  else if !cfg.use_label_protection then false
  else
    let custom_labels := label_ids.filter (fun l => pyStartsWith l "Label_")
    if custom_labels.isEmpty then false
    else
      match cfg.protected_label_ids with
      | some prot => custom_labels.any (fun l => prot.contains l)
      | none => true

/-- `DomainCollector._is_excluded` (src/app/collector.py lines 236-238). -/
def is_excluded (cfg : CollectionConfig) (domain : String) : Bool :=
  cfg.excluded_domains.contains domain

/-- `DomainCollector._should_include` (src/app/collector.py lines 240-250). -/
def should_include (cfg : CollectionConfig) (md : ThreadMetadata) : Bool :=
  !is_protected cfg md.label_ids && !is_excluded cfg md.domain

/-! ## Cleaner (src/app/cleaner.py) -/

/-- A thread dict handed to `DomainCleaner.cleanup`
(`{thread_id, domain, subject, sender, message_count}`). -/
structure CleanupThread where
  thread_id : String
  domain : String
  subject : String
  sender : String
  message_count : Nat
deriving Repr, DecidableEq

/-- The stats dict built by `DomainCleaner._build_stats`
(src/app/cleaner.py lines 129-137). -/
structure CleanupStats where
  threads_processed : Nat
  threads_deleted : Nat
  messages_deleted : Nat
  messages_kept : Nat
deriving Repr, DecidableEq

/-- `DomainCleaner._build_stats` (src/app/cleaner.py lines 129-137). -/
def build_stats (processed deleted messages_deleted kept : Nat) : CleanupStats :=
  ⟨processed, deleted, messages_deleted, kept⟩

/-- The progress events emitted by `DomainCleaner` with their payload fields
(src/app/cleaner.py). -/
inductive CleanupEvent where
  | cleanup_started (dry_run : Bool) (limit : Option Nat) (threads_to_process : Nat)
  | thread_analyzed (thread_id subject sender : String)
  | would_delete (thread_id subject sender : String) (message_count : Nat)
  | deleted (thread_id subject sender : String) (message_count : Nat)
  | delete_error (thread_id error : String)
  | cleanup_completed (stats : CleanupStats)
deriving Repr, DecidableEq

/-- State threaded through a cleanup run: the four counters of the loop in
`DomainCleaner.cleanup`, the progress-event log, the log of `threads().trash`
calls issued to the remote capability, and the ids actually moved to trash. -/
structure CleanupState where
  total_processed : Nat
  threads_deleted : Nat
  messages_deleted : Nat
  messages_kept : Nat
  events : List CleanupEvent
  trash_calls : List String
  trashed : List String
deriving Repr, DecidableEq

def CleanupState.emit (st : CleanupState) (e : CleanupEvent) : CleanupState :=
  { st with events := st.events ++ [e] }

def initCleanupState : CleanupState := ⟨0, 0, 0, 0, [], [], []⟩

def CleanupState.stats (st : CleanupState) : CleanupStats :=
  build_stats st.total_processed st.threads_deleted st.messages_deleted st.messages_kept

/-- One iteration of the `for thread in threads` loop of
`DomainCleaner.cleanup` (src/app/cleaner.py lines 50-97).  `trashOk` is the
remote capability: whether the `threads().trash` call of `_trash_thread`
succeeds for a given id (`false` models a raised `HttpError`, which
`_trash_thread` converts to returning `False`). -/
def cleanupStep (cfg : CleanupConfig) (trashOk : String → Bool)
    (st : CleanupState) (t : CleanupThread) : CleanupState :=
  let subj := truncateDisplay 50 t.subject
  let st := st.emit (.thread_analyzed t.thread_id subj t.sender)
  let st :=
    if cfg.dry_run then
      let st := st.emit (.would_delete t.thread_id subj t.sender t.message_count)
      { st with threads_deleted := st.threads_deleted + 1,
                messages_deleted := st.messages_deleted + t.message_count }
    else
      let st := { st with trash_calls := st.trash_calls ++ [t.thread_id] }
      if trashOk t.thread_id then
        let st := { st with trashed := st.trashed ++ [t.thread_id] }
        let st := st.emit (.deleted t.thread_id subj t.sender t.message_count)
        { st with threads_deleted := st.threads_deleted + 1,
                  messages_deleted := st.messages_deleted + t.message_count }
      else
        let st := st.emit (.delete_error t.thread_id "Failed to trash thread")
        { st with messages_kept := st.messages_kept + t.message_count }
  { st with total_processed := st.total_processed + 1 }

/-- `DomainCleaner.cleanup` (src/app/cleaner.py lines 33-102).
`interruptAfter` models the cooperative `interrupted` flag: the loop checks the
flag before each thread and the flag, once set, is never cleared, so a run
processes exactly the first `interruptAfter` threads (all of them when
`interruptAfter ≥ threads.length`).  Note the loop performs no check of
`config.limit`. -/
def cleanup (cfg : CleanupConfig) (trashOk : String → Bool) (interruptAfter : Nat)
    (threads : List CleanupThread) : CleanupState :=
  if threads.isEmpty then initCleanupState
  else
    let st := initCleanupState.emit (.cleanup_started cfg.dry_run cfg.limit threads.length)
    let st := (threads.take interruptAfter).foldl (cleanupStep cfg trashOk) st
    st.emit (.cleanup_completed st.stats)

/-- Total `message_count` of a list of cleanup threads. -/
def sumMessages (ts : List CleanupThread) : Nat :=
  (ts.map (fun t => t.message_count)).sum

/-- A thread whose trash attempt fails: only possible in a non-dry run, when
the remote capability rejects the id. -/
def failedThread (cfg : CleanupConfig) (trashOk : String → Bool) (t : CleanupThread) : Bool :=
  !cfg.dry_run && !trashOk t.thread_id

/-- The progress events one loop iteration emits for a thread. -/
def stepEvents (cfg : CleanupConfig) (trashOk : String → Bool) (t : CleanupThread) :
    List CleanupEvent :=
  let subj := truncateDisplay 50 t.subject
  CleanupEvent.thread_analyzed t.thread_id subj t.sender ::
    (if cfg.dry_run then [CleanupEvent.would_delete t.thread_id subj t.sender t.message_count]
     else if trashOk t.thread_id then
       [CleanupEvent.deleted t.thread_id subj t.sender t.message_count]
     else [CleanupEvent.delete_error t.thread_id "Failed to trash thread"])

/-- The progress events the processing loop emits for a list of threads. -/
def runEvents (cfg : CleanupConfig) (trashOk : String → Bool) (ts : List CleanupThread) :
    List CleanupEvent :=
  (ts.map (stepEvents cfg trashOk)).flatten

lemma sumMessages_nil : sumMessages [] = 0 := rfl

lemma sumMessages_cons (t : CleanupThread) (ts : List CleanupThread) :
    sumMessages (t :: ts) = t.message_count + sumMessages ts := by
  simp [sumMessages]

lemma cleanupStep_total_processed (cfg : CleanupConfig) (trashOk : String → Bool)
    (st : CleanupState) (t : CleanupThread) :
    (cleanupStep cfg trashOk st t).total_processed = st.total_processed + 1 := by
  by_cases h : cfg.dry_run <;> by_cases h2 : trashOk t.thread_id <;>
    simp [cleanupStep, CleanupState.emit, h, h2]

lemma cleanupStep_threads_deleted (cfg : CleanupConfig) (trashOk : String → Bool)
    (st : CleanupState) (t : CleanupThread) :
    (cleanupStep cfg trashOk st t).threads_deleted =
      st.threads_deleted + (if failedThread cfg trashOk t then 0 else 1) := by
  by_cases h : cfg.dry_run <;> by_cases h2 : trashOk t.thread_id <;>
    simp [cleanupStep, CleanupState.emit, failedThread, h, h2]

lemma cleanupStep_messages_deleted (cfg : CleanupConfig) (trashOk : String → Bool)
    (st : CleanupState) (t : CleanupThread) :
    (cleanupStep cfg trashOk st t).messages_deleted =
      st.messages_deleted + (if failedThread cfg trashOk t then 0 else t.message_count) := by
  by_cases h : cfg.dry_run <;> by_cases h2 : trashOk t.thread_id <;>
    simp [cleanupStep, CleanupState.emit, failedThread, h, h2]

lemma cleanupStep_messages_kept (cfg : CleanupConfig) (trashOk : String → Bool)
    (st : CleanupState) (t : CleanupThread) :
    (cleanupStep cfg trashOk st t).messages_kept =
      st.messages_kept + (if failedThread cfg trashOk t then t.message_count else 0) := by
  by_cases h : cfg.dry_run <;> by_cases h2 : trashOk t.thread_id <;>
    simp [cleanupStep, CleanupState.emit, failedThread, h, h2]

lemma cleanupStep_trash_calls (cfg : CleanupConfig) (trashOk : String → Bool)
    (st : CleanupState) (t : CleanupThread) :
    (cleanupStep cfg trashOk st t).trash_calls =
      st.trash_calls ++ (if cfg.dry_run then [] else [t.thread_id]) := by
  by_cases h : cfg.dry_run <;> by_cases h2 : trashOk t.thread_id <;>
    simp [cleanupStep, CleanupState.emit, h, h2]

lemma cleanupStep_trashed (cfg : CleanupConfig) (trashOk : String → Bool)
    (st : CleanupState) (t : CleanupThread) :
    (cleanupStep cfg trashOk st t).trashed =
      st.trashed ++ (if !cfg.dry_run && trashOk t.thread_id then [t.thread_id] else []) := by
  by_cases h : cfg.dry_run <;> by_cases h2 : trashOk t.thread_id <;>
    simp [cleanupStep, CleanupState.emit, h, h2]

lemma cleanupStep_events (cfg : CleanupConfig) (trashOk : String → Bool)
    (st : CleanupState) (t : CleanupThread) :
    (cleanupStep cfg trashOk st t).events = st.events ++ stepEvents cfg trashOk t := by
  by_cases h : cfg.dry_run <;> by_cases h2 : trashOk t.thread_id <;>
    simp [cleanupStep, CleanupState.emit, stepEvents, h, h2]

lemma foldl_total_processed (cfg : CleanupConfig) (trashOk : String → Bool)
    (ts : List CleanupThread) : ∀ st : CleanupState,
    (ts.foldl (cleanupStep cfg trashOk) st).total_processed = st.total_processed + ts.length := by
  induction ts with
  | nil => intro st; simp
  | cons t ts ih =>
    intro st
    rw [List.foldl_cons, ih, cleanupStep_total_processed, List.length_cons]
    omega

lemma foldl_threads_deleted (cfg : CleanupConfig) (trashOk : String → Bool)
    (ts : List CleanupThread) : ∀ st : CleanupState,
    (ts.foldl (cleanupStep cfg trashOk) st).threads_deleted =
      st.threads_deleted + (ts.filter (fun t => !failedThread cfg trashOk t)).length := by
  induction ts with
  | nil => intro st; simp
  | cons t ts ih =>
    intro st
    rw [List.foldl_cons, ih, cleanupStep_threads_deleted, List.filter_cons]
    by_cases hf : failedThread cfg trashOk t <;> simp [hf] <;> omega

lemma foldl_messages_deleted (cfg : CleanupConfig) (trashOk : String → Bool)
    (ts : List CleanupThread) : ∀ st : CleanupState,
    (ts.foldl (cleanupStep cfg trashOk) st).messages_deleted =
      st.messages_deleted + sumMessages (ts.filter (fun t => !failedThread cfg trashOk t)) := by
  induction ts with
  | nil => intro st; simp [sumMessages_nil]
  | cons t ts ih =>
    intro st
    rw [List.foldl_cons, ih, cleanupStep_messages_deleted, List.filter_cons]
    by_cases hf : failedThread cfg trashOk t <;> simp [hf, sumMessages_cons] <;> omega

lemma foldl_messages_kept (cfg : CleanupConfig) (trashOk : String → Bool)
    (ts : List CleanupThread) : ∀ st : CleanupState,
    (ts.foldl (cleanupStep cfg trashOk) st).messages_kept =
      st.messages_kept + sumMessages (ts.filter (failedThread cfg trashOk)) := by
  induction ts with
  | nil => intro st; simp [sumMessages_nil]
  | cons t ts ih =>
    intro st
    rw [List.foldl_cons, ih, cleanupStep_messages_kept, List.filter_cons]
    by_cases hf : failedThread cfg trashOk t <;> simp [hf, sumMessages_cons] <;> omega

lemma foldl_trash_calls (cfg : CleanupConfig) (trashOk : String → Bool)
    (ts : List CleanupThread) : ∀ st : CleanupState,
    (ts.foldl (cleanupStep cfg trashOk) st).trash_calls =
      st.trash_calls ++ (if cfg.dry_run then [] else ts.map (fun t => t.thread_id)) := by
  induction ts with
  | nil => intro st; simp
  | cons t ts ih =>
    intro st
    rw [List.foldl_cons, ih, cleanupStep_trash_calls]
    by_cases h : cfg.dry_run <;> simp [h]

lemma foldl_trashed (cfg : CleanupConfig) (trashOk : String → Bool)
    (ts : List CleanupThread) : ∀ st : CleanupState,
    (ts.foldl (cleanupStep cfg trashOk) st).trashed =
      st.trashed ++
        (if cfg.dry_run then []
         else (ts.filter (fun t => trashOk t.thread_id)).map (fun t => t.thread_id)) := by
  induction ts with
  | nil => intro st; simp
  | cons t ts ih =>
    intro st
    rw [List.foldl_cons, ih, cleanupStep_trashed, List.filter_cons]
    by_cases h : cfg.dry_run <;> by_cases h2 : trashOk t.thread_id <;> simp [h, h2]

lemma foldl_events (cfg : CleanupConfig) (trashOk : String → Bool)
    (ts : List CleanupThread) : ∀ st : CleanupState,
    (ts.foldl (cleanupStep cfg trashOk) st).events = st.events ++ runEvents cfg trashOk ts := by
  induction ts with
  | nil => intro st; simp [runEvents]
  | cons t ts ih =>
    intro st
    rw [List.foldl_cons, ih, cleanupStep_events]
    simp [runEvents]

@[simp] lemma emit_total_processed (st : CleanupState) (e : CleanupEvent) :
    (st.emit e).total_processed = st.total_processed := rfl

@[simp] lemma emit_threads_deleted (st : CleanupState) (e : CleanupEvent) :
    (st.emit e).threads_deleted = st.threads_deleted := rfl

@[simp] lemma emit_messages_deleted (st : CleanupState) (e : CleanupEvent) :
    (st.emit e).messages_deleted = st.messages_deleted := rfl

@[simp] lemma emit_messages_kept (st : CleanupState) (e : CleanupEvent) :
    (st.emit e).messages_kept = st.messages_kept := rfl

@[simp] lemma emit_trash_calls (st : CleanupState) (e : CleanupEvent) :
    (st.emit e).trash_calls = st.trash_calls := rfl

@[simp] lemma emit_trashed (st : CleanupState) (e : CleanupEvent) :
    (st.emit e).trashed = st.trashed := rfl

@[simp] lemma emit_stats (st : CleanupState) (e : CleanupEvent) :
    (st.emit e).stats = st.stats := rfl

lemma emit_events (st : CleanupState) (e : CleanupEvent) :
    (st.emit e).events = st.events ++ [e] := rfl

lemma length_filter_not_add_length_filter {α : Type} (p : α → Bool) (l : List α) :
    (l.filter (fun x => !p x)).length + (l.filter p).length = l.length := by
  induction l with
  | nil => rfl
  | cons a l ih =>
    by_cases h : p a <;> simp [List.filter_cons, h] <;> omega

lemma sumMessages_filter_not_add (p : CleanupThread → Bool) (ts : List CleanupThread) :
    sumMessages (ts.filter (fun t => !p t)) + sumMessages (ts.filter p) = sumMessages ts := by
  induction ts with
  | nil => rfl
  | cons t ts ih =>
    by_cases h : p t <;> simp [List.filter_cons, h, sumMessages_cons] <;> omega

/-! ## Claim theorems: cleaner -/

/-- C2: for every thread list, interruption point and remote behaviour, a
dry-run cleanup issues no remote trash call (the capability's mutation log
stays empty), while `threads_deleted` counts every processed thread and
`messages_deleted` sums their `message_count`. -/
theorem dry_run_non_mutation (cfg : CleanupConfig) (trashOk : String → Bool)
    (interruptAfter : Nat) (threads : List CleanupThread) (h : cfg.dry_run = true) :
    (cleanup cfg trashOk interruptAfter threads).trash_calls = [] ∧
    (cleanup cfg trashOk interruptAfter threads).trashed = [] ∧
    (cleanup cfg trashOk interruptAfter threads).stats.threads_deleted =
      (threads.take interruptAfter).length ∧
    (cleanup cfg trashOk interruptAfter threads).stats.messages_deleted =
      sumMessages (threads.take interruptAfter) := by
  have hfail : ∀ t : CleanupThread, failedThread cfg trashOk t = false := by
    intro t; simp [failedThread, h]
  unfold cleanup
  by_cases he : threads.isEmpty
  · have hnil : threads = [] := by simpa [List.isEmpty_iff] using he
    subst hnil
    simp [initCleanupState, CleanupState.stats, build_stats, sumMessages_nil]
  · rw [if_neg he]
    simp only [emit_trash_calls, emit_trashed, emit_stats]
    refine ⟨?_, ?_, ?_, ?_⟩
    · rw [foldl_trash_calls]; simp [h, initCleanupState, CleanupState.emit]
    · rw [foldl_trashed]; simp [h, initCleanupState, CleanupState.emit]
    · simp only [CleanupState.stats, build_stats]
      rw [foldl_threads_deleted]
      simp [initCleanupState, CleanupState.emit, hfail]
    · simp only [CleanupState.stats, build_stats]
      rw [foldl_messages_deleted]
      simp [initCleanupState, CleanupState.emit, hfail]

/-- C5: for every cleanup run — any thread list, dry-run flag, pattern of
remote successes and failures, and interruption point — the returned stats
satisfy `threads_processed = threads_deleted + #failed`,
`messages_deleted + messages_kept = Σ message_count` over the processed
threads, and `threads_deleted ≤ threads_processed`. -/
theorem cleanup_conservation (cfg : CleanupConfig) (trashOk : String → Bool)
    (interruptAfter : Nat) (threads : List CleanupThread) :
    (cleanup cfg trashOk interruptAfter threads).stats.threads_processed =
      (cleanup cfg trashOk interruptAfter threads).stats.threads_deleted +
        ((threads.take interruptAfter).filter (failedThread cfg trashOk)).length ∧
    (cleanup cfg trashOk interruptAfter threads).stats.messages_deleted +
        (cleanup cfg trashOk interruptAfter threads).stats.messages_kept =
      sumMessages (threads.take interruptAfter) ∧
    (cleanup cfg trashOk interruptAfter threads).stats.threads_deleted ≤
      (cleanup cfg trashOk interruptAfter threads).stats.threads_processed := by
  unfold cleanup
  by_cases he : threads.isEmpty
  · have hnil : threads = [] := by simpa [List.isEmpty_iff] using he
    subst hnil
    simp [initCleanupState, CleanupState.stats, build_stats, sumMessages_nil]
  · rw [if_neg he]
    simp only [emit_stats, CleanupState.stats, build_stats, foldl_total_processed,
      foldl_threads_deleted, foldl_messages_deleted, foldl_messages_kept,
      emit_total_processed, emit_threads_deleted, emit_messages_deleted,
      emit_messages_kept, initCleanupState]
    refine ⟨?_, ?_, ?_⟩
    · have := length_filter_not_add_length_filter (failedThread cfg trashOk)
        (threads.take interruptAfter)
      omega
    · have := sumMessages_filter_not_add (failedThread cfg trashOk)
        (threads.take interruptAfter)
      omega
    · have := List.length_filter_le (fun t => !failedThread cfg trashOk t)
        (threads.take interruptAfter)
      omega

/-- C9: in an uninterrupted non-dry-run cleanup, a remote trash failure for a
conversation adds its `message_count` to `messages_kept`, emits a
`delete_error` event carrying the id and the error detail, and never aborts
the run: every thread of the input — in particular every thread after a
failure — is still analyzed and counted in `threads_processed`. -/
theorem trash_failure_scoped (cfg : CleanupConfig) (trashOk : String → Bool)
    (threads : List CleanupThread) (h : cfg.dry_run = false) :
    (cleanup cfg trashOk threads.length threads).stats.threads_processed = threads.length ∧
    (cleanup cfg trashOk threads.length threads).stats.messages_kept =
      sumMessages (threads.filter (fun t => !trashOk t.thread_id)) ∧
    (∀ t ∈ threads, trashOk t.thread_id = false →
      CleanupEvent.delete_error t.thread_id "Failed to trash thread" ∈
        (cleanup cfg trashOk threads.length threads).events) ∧
    (∀ t ∈ threads,
      CleanupEvent.thread_analyzed t.thread_id (truncateDisplay 50 t.subject) t.sender ∈
        (cleanup cfg trashOk threads.length threads).events) := by
  have hfail : ∀ t : CleanupThread, failedThread cfg trashOk t = !trashOk t.thread_id := by
    intro t; simp [failedThread, h]
  unfold cleanup
  by_cases he : threads.isEmpty
  · have hnil : threads = [] := by simpa [List.isEmpty_iff] using he
    subst hnil
    simp [initCleanupState, CleanupState.stats, build_stats, sumMessages_nil]
  · rw [if_neg he]
    simp only [emit_stats, List.take_length]
    refine ⟨?_, ?_, ?_, ?_⟩
    · simp only [CleanupState.stats, build_stats]
      rw [foldl_total_processed]
      simp [initCleanupState, CleanupState.emit]
    · simp only [CleanupState.stats, build_stats]
      rw [foldl_messages_kept]
      rw [List.filter_congr (fun t _ => hfail t)]
      simp [initCleanupState, CleanupState.emit]
    · intro t ht hko
      have h1 : CleanupEvent.delete_error t.thread_id "Failed to trash thread" ∈
          stepEvents cfg trashOk t := by
        simp [stepEvents, h, hko]
      have h2 : CleanupEvent.delete_error t.thread_id "Failed to trash thread" ∈
          runEvents cfg trashOk threads :=
        List.mem_flatten.mpr ⟨stepEvents cfg trashOk t, List.mem_map_of_mem _ ht, h1⟩
      rw [emit_events, foldl_events]
      exact List.mem_append_left _ (List.mem_append_right _ h2)
    · intro t ht
      have h1 : CleanupEvent.thread_analyzed t.thread_id (truncateDisplay 50 t.subject)
          t.sender ∈ stepEvents cfg trashOk t := by
        simp [stepEvents]
      have h2 : CleanupEvent.thread_analyzed t.thread_id (truncateDisplay 50 t.subject)
          t.sender ∈ runEvents cfg trashOk threads :=
        List.mem_flatten.mpr ⟨stepEvents cfg trashOk t, List.mem_map_of_mem _ ht, h1⟩
      rw [emit_events, foldl_events]
      exact List.mem_append_left _ (List.mem_append_right _ h2)

/-- C10: an uninterrupted dry-run cleanup of a non-empty thread list reports
every thread as processed and deleted, sums all message counts into
`messages_deleted`, and keeps nothing. -/
theorem dry_run_full_run_stats (cfg : CleanupConfig) (trashOk : String → Bool)
    (threads : List CleanupThread) (h : cfg.dry_run = true) (hne : threads ≠ []) :
    (cleanup cfg trashOk threads.length threads).stats =
      build_stats threads.length threads.length (sumMessages threads) 0 := by
  have hfail : ∀ t : CleanupThread, failedThread cfg trashOk t = false := by
    intro t; simp [failedThread, h]
  have he : ¬ threads.isEmpty = true := by
    simpa [List.isEmpty_iff] using hne
  unfold cleanup
  rw [if_neg he]
  have h1 : threads.filter (fun t => !failedThread cfg trashOk t) = threads := by
    rw [List.filter_congr (fun t _ => congrArg Bool.not (hfail t))]
    simp
  have h2 : threads.filter (failedThread cfg trashOk) = [] := by
    rw [List.filter_congr (fun t _ => hfail t)]
    simp
  simp only [emit_stats, List.take_length, CleanupState.stats, build_stats,
    emit_total_processed, emit_threads_deleted, emit_messages_deleted, emit_messages_kept,
    foldl_total_processed, foldl_threads_deleted, foldl_messages_deleted, foldl_messages_kept,
    initCleanupState, h1, h2]
  simp [sumMessages_nil]

/-- C1 (code bug): `DomainCleaner.cleanup` never consults `config.limit`.
With `limit = 1` and two threads, both threads are analyzed and counted, so
the run acts on more conversations than the cap allows. -/
theorem cleanup_ignores_limit :
    (cleanup ⟨true, some 1⟩ (fun _ => true) 2
        [⟨"t1", "spam.com", "Buy now", "a@spam.com", 2⟩,
         ⟨"t2", "spam.com", "Offer", "b@spam.com", 1⟩]).stats =
      build_stats 2 2 3 0 ∧
    CleanupEvent.thread_analyzed "t2" "Offer" "b@spam.com" ∈
      (cleanup ⟨true, some 1⟩ (fun _ => true) 2
        [⟨"t1", "spam.com", "Buy now", "a@spam.com", 2⟩,
         ⟨"t2", "spam.com", "Offer", "b@spam.com", 1⟩]).events := by
  constructor
  · rfl
  · decide

/-- Witness for `dry_run_non_mutation` at a concrete dry-run configuration. -/
theorem dry_run_non_mutation_witness :
    (⟨true, none⟩ : CleanupConfig).dry_run = true ∧
    (cleanup ⟨true, none⟩ (fun _ => false) 2
        [⟨"t1", "spam.com", "s1", "a@spam.com", 2⟩,
         ⟨"t2", "junk.com", "s2", "b@junk.com", 1⟩]).trash_calls = [] ∧
    (cleanup ⟨true, none⟩ (fun _ => false) 2
        [⟨"t1", "spam.com", "s1", "a@spam.com", 2⟩,
         ⟨"t2", "junk.com", "s2", "b@junk.com", 1⟩]).trashed = [] ∧
    (cleanup ⟨true, none⟩ (fun _ => false) 2
        [⟨"t1", "spam.com", "s1", "a@spam.com", 2⟩,
         ⟨"t2", "junk.com", "s2", "b@junk.com", 1⟩]).stats.threads_deleted = 2 ∧
    (cleanup ⟨true, none⟩ (fun _ => false) 2
        [⟨"t1", "spam.com", "s1", "a@spam.com", 2⟩,
         ⟨"t2", "junk.com", "s2", "b@junk.com", 1⟩]).stats.messages_deleted = 3 := by
  have h := dry_run_non_mutation ⟨true, none⟩ (fun _ => false) 2
    [⟨"t1", "spam.com", "s1", "a@spam.com", 2⟩,
     ⟨"t2", "junk.com", "s2", "b@junk.com", 1⟩] rfl
  exact ⟨rfl, h.1, h.2.1, h.2.2.1, h.2.2.2⟩

/-- Witness for `trash_failure_scoped`: live run where trashing `t1` fails. -/
theorem trash_failure_scoped_witness :
    (⟨false, none⟩ : CleanupConfig).dry_run = false ∧
    (cleanup ⟨false, none⟩ (fun i => i != "t1") 2
        [⟨"t1", "spam.com", "s1", "a@spam.com", 2⟩,
         ⟨"t2", "junk.com", "s2", "b@junk.com", 1⟩]).stats.threads_processed = 2 ∧
    (cleanup ⟨false, none⟩ (fun i => i != "t1") 2
        [⟨"t1", "spam.com", "s1", "a@spam.com", 2⟩,
         ⟨"t2", "junk.com", "s2", "b@junk.com", 1⟩]).stats.messages_kept = 2 ∧
    CleanupEvent.delete_error "t1" "Failed to trash thread" ∈
      (cleanup ⟨false, none⟩ (fun i => i != "t1") 2
        [⟨"t1", "spam.com", "s1", "a@spam.com", 2⟩,
         ⟨"t2", "junk.com", "s2", "b@junk.com", 1⟩]).events ∧
    CleanupEvent.thread_analyzed "t2" "s2" "b@junk.com" ∈
      (cleanup ⟨false, none⟩ (fun i => i != "t1") 2
        [⟨"t1", "spam.com", "s1", "a@spam.com", 2⟩,
         ⟨"t2", "junk.com", "s2", "b@junk.com", 1⟩]).events := by
  have h := trash_failure_scoped ⟨false, none⟩ (fun i => i != "t1")
    [⟨"t1", "spam.com", "s1", "a@spam.com", 2⟩,
     ⟨"t2", "junk.com", "s2", "b@junk.com", 1⟩] rfl
  exact ⟨rfl, h.1, h.2.1, h.2.2.1 ⟨"t1", "spam.com", "s1", "a@spam.com", 2⟩
    (by decide) (by decide), h.2.2.2 ⟨"t2", "junk.com", "s2", "b@junk.com", 1⟩ (by decide)⟩

/-- Witness for `dry_run_full_run_stats` on a concrete two-thread list. -/
theorem dry_run_full_run_stats_witness :
    (⟨true, none⟩ : CleanupConfig).dry_run = true ∧
    ([⟨"t1", "spam.com", "s1", "a@spam.com", 2⟩,
      ⟨"t2", "junk.com", "s2", "b@junk.com", 1⟩] : List CleanupThread) ≠ [] ∧
    (cleanup ⟨true, none⟩ (fun _ => true) 2
        [⟨"t1", "spam.com", "s1", "a@spam.com", 2⟩,
         ⟨"t2", "junk.com", "s2", "b@junk.com", 1⟩]).stats = build_stats 2 2 3 0 := by
  have h := dry_run_full_run_stats ⟨true, none⟩ (fun _ => true)
    [⟨"t1", "spam.com", "s1", "a@spam.com", 2⟩,
     ⟨"t2", "junk.com", "s2", "b@junk.com", 1⟩] rfl (by decide)
  exact ⟨rfl, by decide, h⟩

/-! ## Claim theorems: protection precedence and domain extraction -/

/-- C3: a label set containing `IMPORTANT` or `STARRED` is protected under
every policy configuration, whatever `use_label_protection` and
`protected_label_ids` are. -/
theorem important_starred_always_protected (cfg : CollectionConfig)
    (label_ids : List String)
    (h : "IMPORTANT" ∈ label_ids ∨ "STARRED" ∈ label_ids) :
    is_protected cfg label_ids = true := by
  simp [is_protected]
  exact Or.inl h

/-- Witness for `important_starred_always_protected` with label protection
disabled and a restrictive protected set. -/
theorem important_starred_always_protected_witness :
    ("IMPORTANT" ∈ (["INBOX", "IMPORTANT"] : List String) ∨
      "STARRED" ∈ (["INBOX", "IMPORTANT"] : List String)) ∧
    is_protected ⟨none, [], false, some ["Label_1"]⟩ ["INBOX", "IMPORTANT"] = true :=
  ⟨Or.inl (by decide), important_starred_always_protected ⟨none, [], false, some ["Label_1"]⟩
    ["INBOX", "IMPORTANT"] (Or.inl (by decide))⟩

lemma toLower_toLower (c : Char) : c.toLower.toLower = c.toLower := by
  unfold Char.toLower
  by_cases h : c.toNat ≥ 65 ∧ c.toNat ≤ 90
  · rw [if_pos h]
    have hv : (c.toNat + 32).isValidChar := Or.inl (by omega)
    have ht : (Char.ofNat (c.toNat + 32)).toNat = c.toNat + 32 := by
      rw [Char.ofNat, dif_pos hv]
      simp [Char.ofNatAux, Char.toNat, UInt32.toNat]
    rw [if_neg (by omega)]
  · rw [if_neg h, if_neg h]

lemma toLowerStr_idem (s : String) : toLowerStr (toLowerStr s) = toLowerStr s := by
  have key : ∀ l : List Char, (l.map Char.toLower).map Char.toLower = l.map Char.toLower := by
    intro l
    induction l with
    | nil => rfl
    | cons c cs ih => simp [toLower_toLower c, ih]
  show String.mk ((s.data.map Char.toLower).map Char.toLower) = String.mk (s.data.map Char.toLower)
  rw [key]

lemma splitOnChar_ne_nil (sep : Char) (l : List Char) : splitOnChar sep l ≠ [] := by
  cases l with
  | nil => simp [splitOnChar]
  | cons c cs =>
    by_cases h : c = sep
    · simp [splitOnChar, h]
    · cases hs : splitOnChar sep cs <;> simp [splitOnChar, h, hs]

lemma splitOnChar_eq_single (sep : Char) (l : List Char) (h : l.count sep = 0) :
    splitOnChar sep l = [l] := by
  induction l with
  | nil => rfl
  | cons c cs ih =>
    have hc : ¬ c = sep := by
      intro hceq
      subst hceq
      simp [List.count_cons] at h
    have h0 : cs.count sep = 0 := by
      simp [List.count_cons] at h
      omega
    simp [splitOnChar, hc, ih h0]

lemma splitOnChar_getD_one (l : List Char) (h : l.count '@' ≤ 1) :
    (splitOnChar '@' l).getD 1 [] = (l.dropWhile (fun c => c ≠ '@')).tail := by
  induction l with
  | nil => rfl
  | cons c cs ih =>
    by_cases hc : c = '@'
    · subst hc
      have h0 : cs.count '@' = 0 := by
        simp [List.count_cons] at h
        omega
      simp [splitOnChar, splitOnChar_eq_single '@' cs h0, List.dropWhile]
    · have h' : cs.count '@' ≤ 1 := by
        simp [List.count_cons] at h ⊢
        omega
      obtain ⟨g, gs, hsplit⟩ : ∃ g gs, splitOnChar '@' cs = g :: gs := by
        cases hs : splitOnChar '@' cs with
        | nil => exact absurd hs (splitOnChar_ne_nil '@' cs)
        | cons g gs => exact ⟨g, gs, rfl⟩
      have hrec := ih h'
      rw [hsplit] at hrec
      simp only [splitOnChar, if_neg hc, hsplit, List.dropWhile]
      simpa [hc] using hrec

/-- C4 counterexample: on `"a@b@c"` the code returns the field between the
first and second `@` (`split('@')[1]`), not the whole substring after the
first `@` that the spec describes. -/
theorem extract_domain_multi_at :
    extract_domain "a@b@c" = "b" ∧ specExtractDomain "a@b@c" = "b@c" ∧
    extract_domain "a@b@c" ≠ specExtractDomain "a@b@c" := by
  decide

/-- C4 amended: `extract_domain` agrees with the spec's "substring after the
first `@`, lowercased" whenever the email contains at most one `@` (the
divergence is confined to multi-`@` strings); it returns `""` when no `@` is
present; and composed with `extract_email_address` its result is always
lowercase (and deterministic, being a pure function). -/
theorem extract_domain_spec_agreement :
    (∀ email : String, email.data.count '@' ≤ 1 →
      extract_domain email = specExtractDomain email) ∧
    (∀ email : String, '@' ∉ email.data → extract_domain email = "") ∧
    (∀ sender : String,
      toLowerStr (extract_domain (extract_email_address sender)) =
        extract_domain (extract_email_address sender)) := by
  refine ⟨?_, ?_, ?_⟩
  · intro email h
    unfold extract_domain specExtractDomain
    by_cases hc : '@' ∈ email.data
    · rw [if_pos hc, if_pos hc, splitOnChar_getD_one email.data h]
    · rw [if_neg hc, if_neg hc]
  · intro email h
    unfold extract_domain
    rw [if_neg h]
  · intro sender
    unfold extract_domain
    by_cases hc : '@' ∈ (extract_email_address sender).data
    · rw [if_pos hc]
      exact toLowerStr_idem _
    · rw [if_neg hc]
      rfl

/-- Witness for `extract_domain_spec_agreement` at concrete senders. -/
theorem extract_domain_spec_agreement_witness :
    ("john@example.com".data.count '@' ≤ 1) ∧
    extract_domain "john@example.com" = specExtractDomain "john@example.com" ∧
    ('@' ∉ "invalid".data) ∧
    extract_domain "invalid" = "" ∧
    toLowerStr (extract_domain (extract_email_address "John Doe <John@EXAMPLE.com>")) =
      extract_domain (extract_email_address "John Doe <John@EXAMPLE.com>") :=
  ⟨by decide, extract_domain_spec_agreement.1 "john@example.com" (by decide),
    by decide, extract_domain_spec_agreement.2.1 "invalid" (by decide),
    extract_domain_spec_agreement.2.2 "John Doe <John@EXAMPLE.com>"⟩

/-! ## Collector (src/app/collector.py)

The remote side of `_get_thread_metadata` is an oracle
`meta : String → Option RawThread`: `none` models an `HttpError` raised by the
`threads().get` call, `some raw` the fetched thread payload.  Page listing is a
list of outcomes for successive `threads().list` calls: `none` models an
`HttpError`, `some ids` a page of thread ids (the next-page token exists
exactly when further elements follow). -/

/-- The parts of a Gmail message payload the collector reads: its labels and
the `From`/`Subject` headers (absent headers fall back to the Python
defaults). -/
structure RawMessage where
  label_ids : List String
  from_header : Option String
  subject_header : Option String
deriving Repr, DecidableEq

/-- The parts of a fetched thread the collector reads. -/
structure RawThread where
  label_ids : List String
  messages : List RawMessage
deriving Repr, DecidableEq

/-- The parsing part of `DomainCollector._get_thread_metadata`
(src/app/collector.py lines 167-204): `none` when the thread has no messages
or no domain can be derived.  Python's `list(set(a + b))` label union is
modelled as `(a ++ b).dedup` (only membership in the combined set is ever
used). -/
def get_thread_metadata (thread_id : String) (t : RawThread) : Option ThreadMetadata :=
  match t.messages with
  | [] => none
  | first :: _ =>
    let sender := first.from_header.getD "(Unknown Sender)"
    let subject := first.subject_header.getD "(No Subject)"
    let sender_email := extract_email_address sender
    let all_label_ids := (t.label_ids ++ first.label_ids).dedup
    let domain := extract_domain sender_email
    if domain = "" then none
    else some ⟨thread_id, domain, subject, sender_email, t.messages.length, all_label_ids⟩

/-- The progress events emitted by `DomainCollector` with their structured
payload fields (human-readable message strings omitted). -/
inductive CollectEvent where
  | collection_started (total_threads : Nat) (limit : Option Nat)
  | thread_processed (thread_id domain subject : String)
      (processed_threads total_threads unique_domains : Nat)
  | error
  | collection_completed (processed_threads total_threads unique_domains : Nat)
deriving Repr, DecidableEq

/-- One domain's entry of the `domain_data` defaultdict
(`{'count': 0, 'subjects': []}`). -/
structure DomainData where
  count : Nat
  subjects : List String
deriving Repr, DecidableEq

/-- A lightweight thread summary of `_build_results`
(`{thread_id, subject, sender, message_count}`). -/
structure ThreadSummary where
  thread_id : String
  subject : String
  sender : String
  message_count : Nat
deriving Repr, DecidableEq

/-- `DomainInfo` (src/app/models.py lines 20-25). -/
structure DomainInfo where
  domain : String
  count : Nat
  threads : List ThreadSummary
deriving Repr, DecidableEq

/-- Lookup in an insertion-ordered association list (a Python dict). -/
def alistGet {α : Type} (k : String) : List (String × α) → Option α
  | [] => none
  | p :: rest => if p.1 = k then some p.2 else alistGet k rest

/-- Update in an insertion-ordered association list: replace the entry in
place when the key exists, else append (Python dict assignment). -/
def alistSet {α : Type} (k : String) (v : α) : List (String × α) → List (String × α)
  | [] => [(k, v)]
  | p :: rest => if p.1 = k then (k, v) :: rest else p :: alistSet k v rest

/-- State threaded through a collection run: the two index dicts and the
`domain_data` aggregation of `DomainCollector.collect`, the running
`total_threads` counter, a clock counting reads of the `interrupted` flag, the
progress-event log, and the log of thread ids whose metadata was requested
from the remote capability. -/
structure CollectorState where
  threads_by_id : List (String × ThreadMetadata)
  threads_by_domain : List (String × List String)
  domain_data : List (String × DomainData)
  total_threads : Nat
  clock : Nat
  events : List CollectEvent
  meta_requests : List String
deriving Repr, DecidableEq

def CollectorState.emitEvent (st : CollectorState) (e : CollectEvent) : CollectorState :=
  { st with events := st.events ++ [e] }

def initCollectorState : CollectorState := ⟨[], [], [], 0, 0, [], []⟩

/-- `DomainCollector._store_thread` (src/app/collector.py lines 254-257). -/
def store_thread (st : CollectorState) (md : ThreadMetadata) : CollectorState :=
  { st with
    threads_by_id := alistSet md.thread_id md st.threads_by_id,
    threads_by_domain :=
      alistSet md.domain (((alistGet md.domain st.threads_by_domain).getD []) ++ [md.thread_id])
        st.threads_by_domain }

/-- The per-thread change to one `domain_data` entry (src/app/collector.py
lines 82-85): bump the count, and record the subject while fewer than three
distinct subjects are stored. -/
def bumpDomainData (subject : String) (data0 : DomainData) : DomainData :=
  if !data0.subjects.contains subject && data0.subjects.length < 3 then
    ⟨data0.count + 1, data0.subjects ++ [subject]⟩
  else ⟨data0.count + 1, data0.subjects⟩

/-- The `domain_data` defaultdict update of the collect loop
(src/app/collector.py lines 82-85); an absent domain starts from
`{'count': 0, 'subjects': []}`. -/
def update_domain_data (st : CollectorState) (md : ThreadMetadata) : CollectorState :=
  { st with domain_data := alistSet md.domain (bumpDomainData md.subject ((alistGet md.domain st.domain_data).getD ⟨0, []⟩)) st.domain_data }

/-- The inner `for thread in threads` loop of `DomainCollector.collect`
(src/app/collector.py lines 66-106) over one page of thread ids.  Returns the
new state and whether an `HttpError` escaped from a metadata fetch (to be
handled by the page loop's `except`).  `checkIntr` is consulted at each read
of the `interrupted` flag. -/
def processIds (cfg : CollectionConfig) (meta : String → Option RawThread)
    (checkIntr : Nat → Bool) (effTotal : Nat) :
    List String → CollectorState → CollectorState × Bool
  | [], st => (st, false)
  | tid :: ids, st =>
    if checkIntr st.clock then ({ st with clock := st.clock + 1 }, false)
    else
      let st := { st with clock := st.clock + 1, meta_requests := st.meta_requests ++ [tid] }
      match meta tid with
      | none => (st, true)
      | some raw =>
        match get_thread_metadata tid raw with
        | none => processIds cfg meta checkIntr effTotal ids st
        | some md =>
          if !should_include cfg md then processIds cfg meta checkIntr effTotal ids st
          else
            let st := update_domain_data (store_thread st md) md
            let st := { st with total_threads := st.total_threads + 1 }
            let st := st.emitEvent (.thread_processed md.thread_id md.domain
              (truncateDisplay 60 md.subject) st.total_threads effTotal st.domain_data.length)
            if limitReached cfg.limit st.total_threads then (st, false)
            else processIds cfg meta checkIntr effTotal ids st

/-- The `while not self.interrupted` page loop of `DomainCollector.collect`
(src/app/collector.py lines 59-118): check the flag, fetch the next page
(`none` outcome = `HttpError`, caught as an `error` event and a break; an
exhausted list or an empty page ends pagination), run the inner loop, catch a
metadata `HttpError` the same way, re-check the limit, and continue while a
next-page token exists. -/
def collectPages (cfg : CollectionConfig) (meta : String → Option RawThread)
    (checkIntr : Nat → Bool) (effTotal : Nat) :
    List (Option (List String)) → CollectorState → CollectorState
  | [], st => { st with clock := st.clock + 1 }
  | none :: _, st =>
    if checkIntr st.clock then { st with clock := st.clock + 1 }
    else
      let st := { st with clock := st.clock + 1 }
      st.emitEvent .error
  | some page :: rest, st =>
    if checkIntr st.clock then { st with clock := st.clock + 1 }
    else
      let st := { st with clock := st.clock + 1 }
      if page.isEmpty then st
      else if (processIds cfg meta checkIntr effTotal page st).2 then
        (processIds cfg meta checkIntr effTotal page st).1.emitEvent .error
      else if limitReached cfg.limit
          (processIds cfg meta checkIntr effTotal page st).1.total_threads then
        (processIds cfg meta checkIntr effTotal page st).1
      else
        match rest with
        | [] => (processIds cfg meta checkIntr effTotal page st).1
        | _ :: _ =>
          collectPages cfg meta checkIntr effTotal rest
            (processIds cfg meta checkIntr effTotal page st).1

/-- `effective_total = min(limit, total) if limit else total`
(src/app/collector.py line 42), with Python truthiness of `limit`. -/
def effectiveTotal (limit : Option Nat) (total : Nat) : Nat :=
  match limit with
  | some l => if 0 < l then min l total else total
  | none => total

/-- `DomainCollector._build_results` (src/app/collector.py lines 261-285). -/
def build_results (st : CollectorState) : List (String × DomainInfo) :=
  st.domain_data.map (fun p =>
    let ids := (alistGet p.1 st.threads_by_domain).getD []
    let threads := ids.filterMap (fun tid =>
      (alistGet tid st.threads_by_id).map (fun md =>
        (⟨tid, md.subject, md.sender, md.message_count⟩ : ThreadSummary)))
    (p.1, ⟨p.1, p.2.count, threads⟩))

/-- `DomainCollector.collect` (src/app/collector.py lines 39-133).
`totalCount` is the best-effort inbox total of `_get_total_thread_count`
(display only).  The index dicts start cleared, as after lines 52-53. -/
def collect (cfg : CollectionConfig) (meta : String → Option RawThread)
    (checkIntr : Nat → Bool) (totalCount : Nat)
    (pages : List (Option (List String))) : CollectorState :=
  let effTotal := effectiveTotal cfg.limit totalCount
  let st := initCollectorState.emitEvent (.collection_started effTotal cfg.limit)
  let st := collectPages cfg meta checkIntr effTotal pages st
  st.emitEvent (.collection_completed st.total_threads effTotal (build_results st).length)

/-! ### Association-list lemmas -/

lemma alistGet_set_self {α : Type} (k : String) (v : α) (l : List (String × α)) :
    alistGet k (alistSet k v l) = some v := by
  induction l with
  | nil => simp [alistGet, alistSet]
  | cons p rest ih =>
    by_cases h : p.1 = k
    · simp [alistSet, alistGet, h]
    · simp [alistSet, alistGet, h, ih]

lemma alistGet_set_ne {α : Type} (k k' : String) (v : α) (l : List (String × α))
    (h : k ≠ k') : alistGet k' (alistSet k v l) = alistGet k' l := by
  induction l with
  | nil => simp [alistGet, alistSet, h]
  | cons p rest ih =>
    by_cases hp : p.1 = k
    · subst hp
      simp [alistSet, alistGet, h]
    · simp [alistSet, alistGet, hp, ih]

lemma alistSet_map_fst {α : Type} (k : String) (v : α) (l : List (String × α)) :
    (alistSet k v l).map Prod.fst =
      if k ∈ l.map Prod.fst then l.map Prod.fst else l.map Prod.fst ++ [k] := by
  induction l with
  | nil => simp [alistSet]
  | cons p rest ih =>
    by_cases h : p.1 = k
    · subst h
      simp [alistSet]
    · have hk : ¬ k = p.1 := fun hh => h hh.symm
      by_cases h2 : k ∈ rest.map Prod.fst <;> simp [alistSet, h, hk, h2, ih]

lemma nodup_keys_alistSet {α : Type} (k : String) (v : α) (l : List (String × α))
    (h : (l.map Prod.fst).Nodup) : ((alistSet k v l).map Prod.fst).Nodup := by
  rw [alistSet_map_fst]
  by_cases hm : k ∈ l.map Prod.fst
  · simpa [hm] using h
  · simp [hm, List.nodup_append, h]

lemma alistGet_of_mem {α : Type} {l : List (String × α)} (h : (l.map Prod.fst).Nodup)
    {k : String} {v : α} (hm : (k, v) ∈ l) : alistGet k l = some v := by
  induction l with
  | nil => cases hm
  | cons p rest ih =>
    rcases List.mem_cons.mp hm with heq | hm'
    · subst heq
      simp [alistGet]
    · rw [List.map_cons] at h
      have hne : ¬ p.1 = k := by
        intro hh
        have hk : k ∈ rest.map Prod.fst := List.mem_map_of_mem Prod.fst hm'
        rw [hh] at h
        exact (List.nodup_cons.mp h).1 hk
      simp only [alistGet, if_neg hne]
      exact ih (List.nodup_cons.mp h).2 hm'

lemma getD_count (o : Option DomainData) :
    (o.getD ⟨0, []⟩).count = (o.map DomainData.count).getD 0 := by
  cases o <;> rfl

lemma bumpDomainData_count (s : String) (data0 : DomainData) :
    (bumpDomainData s data0).count = data0.count + 1 := by
  unfold bumpDomainData
  split <;> rfl

lemma store_by_id (st : CollectorState) (md : ThreadMetadata) :
    (store_thread st md).threads_by_id = alistSet md.thread_id md st.threads_by_id := rfl

lemma store_by_domain (st : CollectorState) (md : ThreadMetadata) :
    (store_thread st md).threads_by_domain =
      alistSet md.domain (((alistGet md.domain st.threads_by_domain).getD []) ++ [md.thread_id])
        st.threads_by_domain := rfl

lemma store_domain_data (st : CollectorState) (md : ThreadMetadata) :
    (store_thread st md).domain_data = st.domain_data := rfl

lemma update_dd_by_id (st : CollectorState) (md : ThreadMetadata) :
    (update_domain_data st md).threads_by_id = st.threads_by_id := rfl

lemma update_dd_by_domain (st : CollectorState) (md : ThreadMetadata) :
    (update_domain_data st md).threads_by_domain = st.threads_by_domain := rfl

lemma update_dd_domain_data (st : CollectorState) (md : ThreadMetadata) :
    (update_domain_data st md).domain_data =
      alistSet md.domain
        (bumpDomainData md.subject ((alistGet md.domain st.domain_data).getD ⟨0, []⟩))
        st.domain_data := rfl

lemma length_filterMap_of_isSome {α β : Type} (f : α → Option β) (l : List α)
    (h : ∀ a ∈ l, (f a).isSome) : (l.filterMap f).length = l.length := by
  induction l with
  | nil => rfl
  | cons a l ih =>
    have ha := h a (List.mem_cons_self a l)
    obtain ⟨b, hb⟩ := Option.isSome_iff_exists.mp ha
    rw [List.filterMap_cons, hb]
    simp only [List.length_cons]
    rw [ih (fun x hx => h x (List.mem_cons_of_mem a hx))]

/-! ### The collection index invariant (claim C6) -/

/-- The invariant tying the three dictionaries of a collection run together:
every domain's `count` equals the length of its `threads_by_domain` list,
every stored id resolves in `threads_by_id` to metadata that passed the
protection/exclusion policy, and `domain_data` has no duplicate keys. -/
def dictInv (cfg : CollectionConfig) (st : CollectorState) : Prop :=
  (∀ d : String, ((alistGet d st.domain_data).map DomainData.count).getD 0 =
      ((alistGet d st.threads_by_domain).getD []).length) ∧
  (∀ d tid, tid ∈ (alistGet d st.threads_by_domain).getD [] →
      ∃ md, alistGet tid st.threads_by_id = some md ∧ should_include cfg md = true) ∧
  (st.domain_data.map Prod.fst).Nodup

lemma dictInv_init (cfg : CollectionConfig) : dictInv cfg initCollectorState := by
  refine ⟨?_, ?_, ?_⟩ <;> simp [initCollectorState, alistGet]

lemma dictInv_include_step (cfg : CollectionConfig) (st : CollectorState)
    (md : ThreadMetadata) (hInv : dictInv cfg st)
    (hinc : should_include cfg md = true) :
    dictInv cfg (update_domain_data (store_thread st md) md) := by
  obtain ⟨h1, h2, h3⟩ := hInv
  simp only [dictInv, update_dd_domain_data, update_dd_by_domain, update_dd_by_id,
    store_by_domain, store_by_id, store_domain_data]
  refine ⟨?_, ?_, ?_⟩
  · intro d
    by_cases hd : d = md.domain
    · subst hd
      rw [alistGet_set_self, alistGet_set_self]
      simp only [Option.map_some', Option.getD_some, List.length_append]
      rw [bumpDomainData_count, getD_count, h1 md.domain]
      simp
    · rw [alistGet_set_ne _ _ _ _ (fun hh => hd hh.symm),
        alistGet_set_ne _ _ _ _ (fun hh => hd hh.symm)]
      exact h1 d
  · intro d tid hmem
    by_cases htid : tid = md.thread_id
    · subst htid
      exact ⟨md, alistGet_set_self _ _ _, hinc⟩
    · have hlook : alistGet tid (alistSet md.thread_id md st.threads_by_id) =
          alistGet tid st.threads_by_id :=
        alistGet_set_ne _ _ _ _ (fun hh => htid hh.symm)
      have hold : ∃ d', tid ∈ (alistGet d' st.threads_by_domain).getD [] := by
        by_cases hd : d = md.domain
        · subst hd
          rw [alistGet_set_self] at hmem
          rcases List.mem_append.mp hmem with hmem' | hmem'
          · exact ⟨md.domain, hmem'⟩
          · exact absurd (List.mem_singleton.mp hmem') htid
        · rw [alistGet_set_ne _ _ _ _ (fun hh => hd hh.symm)] at hmem
          exact ⟨d, hmem⟩
      obtain ⟨d', hmem'⟩ := hold
      obtain ⟨md', hl, hi⟩ := h2 d' tid hmem'
      exact ⟨md', hlook.trans hl, hi⟩
  · exact nodup_keys_alistSet _ _ _ h3

lemma dictInv_processIds (cfg : CollectionConfig) (meta : String → Option RawThread)
    (checkIntr : Nat → Bool) (effTotal : Nat) (ids : List String) :
    ∀ st : CollectorState, dictInv cfg st →
      dictInv cfg (processIds cfg meta checkIntr effTotal ids st).1 := by
  induction ids with
  | nil => intro st h; exact h
  | cons tid ids ih =>
    intro st h
    rw [processIds]
    by_cases hc : checkIntr st.clock
    · rw [if_pos hc]
      exact h
    · rw [if_neg hc]
      cases hm : meta tid with
      | none => exact h
      | some raw =>
        cases hg : get_thread_metadata tid raw with
        | none =>
          simp only [hg]
          exact ih _ h
        | some md =>
          simp only [hg]
          by_cases hs : should_include cfg md
          · rw [if_neg (by simp [hs])]
            have h1 := dictInv_include_step cfg
              { st with clock := st.clock + 1, meta_requests := st.meta_requests ++ [tid] }
              md h hs
            split
            · exact h1
            · exact ih _ h1
          · rw [if_pos (by simp [hs])]
            exact ih _ h

lemma dictInv_collectPages (cfg : CollectionConfig) (meta : String → Option RawThread)
    (checkIntr : Nat → Bool) (effTotal : Nat) (pages : List (Option (List String))) :
    ∀ st : CollectorState, dictInv cfg st →
      dictInv cfg (collectPages cfg meta checkIntr effTotal pages st) := by
  induction pages with
  | nil => intro st h; exact h
  | cons p rest ih =>
    intro st h
    cases p with
    | none =>
      rw [collectPages]
      by_cases hc : checkIntr st.clock
      · rw [if_pos hc]; exact h
      · rw [if_neg hc]; exact h
    | some page =>
      rw [collectPages]
      by_cases hc : checkIntr st.clock
      · rw [if_pos hc]; exact h
      · rw [if_neg hc]
        by_cases hp : page.isEmpty
        · rw [if_pos hp]; exact h
        · rw [if_neg hp]
          have h1 := dictInv_processIds cfg meta checkIntr effTotal page
            { st with clock := st.clock + 1 } h
          by_cases hb : (processIds cfg meta checkIntr effTotal page
            { st with clock := st.clock + 1 }).2
          · rw [if_pos hb]
            exact h1
          · rw [if_neg hb]
            split
            · exact h1
            · cases rest with
              | nil => exact h1
              | cons q rest' => exact ih _ h1

lemma dictInv_collect (cfg : CollectionConfig) (meta : String → Option RawThread)
    (checkIntr : Nat → Bool) (totalCount : Nat) (pages : List (Option (List String))) :
    dictInv cfg (collect cfg meta checkIntr totalCount pages) :=
  dictInv_collectPages cfg meta checkIntr (effectiveTotal cfg.limit totalCount) pages
    (initCollectorState.emitEvent
      (CollectEvent.collection_started (effectiveTotal cfg.limit totalCount) cfg.limit))
    (dictInv_init cfg)

/-- What `dictInv` yields about each entry of `_build_results`. -/
lemma build_results_entry (cfg : CollectionConfig) (st : CollectorState)
    (hInv : dictInv cfg st) :
    ∀ p ∈ build_results st,
      p.2.count = p.2.threads.length ∧
      p.2.threads.length = ((alistGet p.1 st.threads_by_domain).getD []).length ∧
      ∀ ts ∈ p.2.threads, ∃ md, alistGet ts.thread_id st.threads_by_id = some md ∧
        should_include cfg md = true ∧ ts.subject = md.subject ∧ ts.sender = md.sender ∧
        ts.message_count = md.message_count := by
  obtain ⟨h1, h2, h3⟩ := hInv
  intro p hp
  obtain ⟨q, hq, hpq⟩ := List.mem_map.mp hp
  subst hpq
  have hget : alistGet q.1 st.domain_data = some q.2 := alistGet_of_mem h3 hq
  have hcount : q.2.count = ((alistGet q.1 st.threads_by_domain).getD []).length := by
    have := h1 q.1
    rw [hget] at this
    simpa using this
  have hsome : ∀ tid ∈ (alistGet q.1 st.threads_by_domain).getD [],
      (alistGet tid st.threads_by_id).isSome := by
    intro tid htid
    obtain ⟨md, hl, _⟩ := h2 q.1 tid htid
    simp [hl]
  have hlen : (((alistGet q.1 st.threads_by_domain).getD []).filterMap (fun tid =>
      (alistGet tid st.threads_by_id).map (fun md =>
        (⟨tid, md.subject, md.sender, md.message_count⟩ : ThreadSummary)))).length =
      ((alistGet q.1 st.threads_by_domain).getD []).length := by
    apply length_filterMap_of_isSome
    intro tid htid
    have := hsome tid htid
    simp only [Option.isSome_map']
    exact this
  refine ⟨?_, ?_, ?_⟩
  · simpa [hlen] using hcount
  · simpa using hlen
  · intro ts hts
    obtain ⟨tid, htid, hf⟩ := List.mem_filterMap.mp hts
    obtain ⟨md, hmd, hts'⟩ := Option.map_eq_some'.mp hf
    obtain ⟨md', hl', hi'⟩ := h2 q.1 tid htid
    rw [hl'] at hmd
    have heq := Option.some.inj hmd
    subst heq
    subst hts'
    exact ⟨md', hl', hi', rfl, rfl, rfl⟩

/-- C6: after every `collect()` run — cut short by limit, interruption or a
remote error or not — every domain entry of the result satisfies
`count = len(threads) = len(threads_by_domain[d])`, every id stored in
`threads_by_domain` resolves in `threads_by_id`, and every listed thread
summary comes from stored metadata that passed the protection and exclusion
policy. -/
theorem collect_aggregate_invariant (cfg : CollectionConfig)
    (meta : String → Option RawThread) (checkIntr : Nat → Bool) (totalCount : Nat)
    (pages : List (Option (List String))) :
    (∀ p ∈ build_results (collect cfg meta checkIntr totalCount pages),
      p.2.count = p.2.threads.length ∧
      p.2.threads.length =
        ((alistGet p.1 (collect cfg meta checkIntr totalCount pages).threads_by_domain).getD
          []).length) ∧
    (∀ d tid,
      tid ∈ (alistGet d (collect cfg meta checkIntr totalCount pages).threads_by_domain).getD
        [] →
      ∃ md, alistGet tid (collect cfg meta checkIntr totalCount pages).threads_by_id =
        some md ∧ should_include cfg md = true) ∧
    (∀ p ∈ build_results (collect cfg meta checkIntr totalCount pages),
      ∀ ts ∈ p.2.threads,
        ∃ md, alistGet ts.thread_id
            (collect cfg meta checkIntr totalCount pages).threads_by_id = some md ∧
          should_include cfg md = true ∧ ts.subject = md.subject ∧ ts.sender = md.sender ∧
          ts.message_count = md.message_count) := by
  have hInv := dictInv_collect cfg meta checkIntr totalCount pages
  have hentry := build_results_entry cfg _ hInv
  refine ⟨?_, hInv.2.1, ?_⟩
  · intro p hp
    exact ⟨(hentry p hp).1, (hentry p hp).2.1⟩
  · intro p hp
    exact (hentry p hp).2.2

/-- Witness for `collect_aggregate_invariant` on a concrete two-thread inbox:
the `spam.com` entry has `count = 2 = len(threads)`. -/
theorem collect_aggregate_invariant_witness :
    (("spam.com", (⟨"spam.com", 2,
        [⟨"t1", "S1", "a@spam.com", 1⟩, ⟨"t2", "S2", "b@spam.com", 1⟩]⟩ : DomainInfo)) ∈
      build_results (collect ⟨none, [], true, none⟩
        (fun tid =>
          if tid = "t1" then some ⟨["INBOX"], [⟨["INBOX"], some "A <a@spam.com>", some "S1"⟩]⟩
          else if tid = "t2" then
            some ⟨["INBOX"], [⟨["INBOX"], some "B <b@spam.com>", some "S2"⟩]⟩
          else none)
        (fun _ => false) 2 [some ["t1", "t2"]])) ∧
    ((⟨"spam.com", 2,
        [⟨"t1", "S1", "a@spam.com", 1⟩, ⟨"t2", "S2", "b@spam.com", 1⟩]⟩ : DomainInfo).count =
      (⟨"spam.com", 2,
        [⟨"t1", "S1", "a@spam.com", 1⟩, ⟨"t2", "S2", "b@spam.com", 1⟩]⟩ :
          DomainInfo).threads.length) := by
  have h := collect_aggregate_invariant ⟨none, [], true, none⟩
    (fun tid =>
      if tid = "t1" then some ⟨["INBOX"], [⟨["INBOX"], some "A <a@spam.com>", some "S1"⟩]⟩
      else if tid = "t2" then
        some ⟨["INBOX"], [⟨["INBOX"], some "B <b@spam.com>", some "S2"⟩]⟩
      else none)
    (fun _ => false) 2 [some ["t1", "t2"]]
  exact ⟨by decide, (h.1 ("spam.com", (⟨"spam.com", 2,
    [⟨"t1", "S1", "a@spam.com", 1⟩, ⟨"t2", "S2", "b@spam.com", 1⟩]⟩ : DomainInfo))
    (by decide)).1⟩

/-! ### Limit semantics (claim C7) -/

/-- Whether a conversation id would be included by the scan: metadata can be
fetched and parsed, and the result passes the protection/exclusion policy. -/
def includeTest (cfg : CollectionConfig) (meta : String → Option RawThread)
    (tid : String) : Bool :=
  match meta tid with
  | none => false
  | some raw =>
    match get_thread_metadata tid raw with
    | none => false
    | some md => should_include cfg md

/-- The ids a limited scan visits: everything up to and including the `n`-th
included conversation of the stream (everything, when fewer than `n` are
included). -/
def visitedUntil (cfg : CollectionConfig) (meta : String → Option RawThread) :
    Nat → List String → List String
  | _, [] => []
  | n, tid :: ids =>
    if includeTest cfg meta tid then
      if n ≤ 1 then [tid]
      else tid :: visitedUntil cfg meta (n - 1) ids
    else tid :: visitedUntil cfg meta n ids

/-- Number of ids of the stream that pass `includeTest`. -/
def includedCount (cfg : CollectionConfig) (meta : String → Option RawThread)
    (ids : List String) : Nat :=
  (ids.filter (includeTest cfg meta)).length

lemma includedCount_nil (cfg : CollectionConfig) (meta : String → Option RawThread) :
    includedCount cfg meta [] = 0 := rfl

lemma includedCount_cons (cfg : CollectionConfig) (meta : String → Option RawThread)
    (tid : String) (ids : List String) :
    includedCount cfg meta (tid :: ids) =
      (if includeTest cfg meta tid then 1 else 0) + includedCount cfg meta ids := by
  by_cases h : includeTest cfg meta tid <;> simp [includedCount, List.filter_cons, h] <;> omega

lemma includedCount_append (cfg : CollectionConfig) (meta : String → Option RawThread)
    (l1 l2 : List String) :
    includedCount cfg meta (l1 ++ l2) = includedCount cfg meta l1 + includedCount cfg meta l2 := by
  simp [includedCount, List.filter_append]

lemma visitedUntil_append_ge (cfg : CollectionConfig) (meta : String → Option RawThread) :
    ∀ (p : List String) (n : Nat) (rest : List String), 0 < n →
      n ≤ includedCount cfg meta p →
      visitedUntil cfg meta n (p ++ rest) = visitedUntil cfg meta n p := by
  intro p
  induction p with
  | nil =>
    intro n rest hn h
    rw [includedCount_nil] at h
    omega
  | cons tid p' ih =>
    intro n rest hn h
    rw [includedCount_cons] at h
    by_cases hi : includeTest cfg meta tid
    · by_cases h1 : n ≤ 1
      · simp [visitedUntil, hi, h1]
      · have := ih (n - 1) rest (by omega) (by rw [hi] at h; simp at h; omega)
        simp [visitedUntil, hi, h1, this]
    · have := ih n rest hn (by rw [if_neg hi] at h; omega)
      simp [visitedUntil, hi, this]

lemma visitedUntil_append_lt (cfg : CollectionConfig) (meta : String → Option RawThread) :
    ∀ (p : List String) (n : Nat) (rest : List String),
      includedCount cfg meta p < n →
      visitedUntil cfg meta n (p ++ rest) =
        p ++ visitedUntil cfg meta (n - includedCount cfg meta p) rest := by
  intro p
  induction p with
  | nil =>
    intro n rest h
    simp [includedCount_nil, visitedUntil]
  | cons tid p' ih =>
    intro n rest h
    rw [includedCount_cons] at h ⊢
    by_cases hi : includeTest cfg meta tid
    · rw [if_pos hi] at h ⊢
      have h1 : ¬ n ≤ 1 := by omega
      rw [List.cons_append, visitedUntil, if_pos hi, if_neg h1]
      rw [ih (n - 1) rest (by omega)]
      have harith : n - 1 - includedCount cfg meta p' = n - (1 + includedCount cfg meta p') := by
        omega
      rw [harith, List.cons_append]
    · rw [if_neg hi] at h ⊢
      rw [List.cons_append, visitedUntil, if_neg hi]
      rw [ih n rest (by omega), List.cons_append]
      simp

lemma visitedUntil_all (cfg : CollectionConfig) (meta : String → Option RawThread)
    (p : List String) (n : Nat) (h : includedCount cfg meta p < n) :
    visitedUntil cfg meta n p = p := by
  have := visitedUntil_append_lt cfg meta p n [] h
  simpa [visitedUntil] using this

@[simp] lemma emitEvent_by_id (st : CollectorState) (e : CollectEvent) :
    (st.emitEvent e).threads_by_id = st.threads_by_id := rfl

@[simp] lemma emitEvent_by_domain (st : CollectorState) (e : CollectEvent) :
    (st.emitEvent e).threads_by_domain = st.threads_by_domain := rfl

@[simp] lemma emitEvent_domain_data (st : CollectorState) (e : CollectEvent) :
    (st.emitEvent e).domain_data = st.domain_data := rfl

@[simp] lemma emitEvent_total_threads (st : CollectorState) (e : CollectEvent) :
    (st.emitEvent e).total_threads = st.total_threads := rfl

@[simp] lemma emitEvent_meta_requests (st : CollectorState) (e : CollectEvent) :
    (st.emitEvent e).meta_requests = st.meta_requests := rfl

lemma emitEvent_events (st : CollectorState) (e : CollectEvent) :
    (st.emitEvent e).events = st.events ++ [e] := rfl

@[simp] lemma store_total_threads (st : CollectorState) (md : ThreadMetadata) :
    (store_thread st md).total_threads = st.total_threads := rfl

@[simp] lemma store_meta_requests (st : CollectorState) (md : ThreadMetadata) :
    (store_thread st md).meta_requests = st.meta_requests := rfl

@[simp] lemma store_events (st : CollectorState) (md : ThreadMetadata) :
    (store_thread st md).events = st.events := rfl

@[simp] lemma update_dd_total_threads (st : CollectorState) (md : ThreadMetadata) :
    (update_domain_data st md).total_threads = st.total_threads := rfl

@[simp] lemma update_dd_meta_requests (st : CollectorState) (md : ThreadMetadata) :
    (update_domain_data st md).meta_requests = st.meta_requests := rfl

@[simp] lemma update_dd_events (st : CollectorState) (md : ThreadMetadata) :
    (update_domain_data st md).events = st.events := rfl

lemma processIds_limit (cfg : CollectionConfig) (meta : String → Option RawThread)
    (effTotal : Nat) (n : Nat) (hl : cfg.limit = some n) (hn : 0 < n)
    (hmeta : ∀ tid, (meta tid).isSome) (ids : List String) :
    ∀ st : CollectorState, st.total_threads < n →
      (processIds cfg meta (fun _ => false) effTotal ids st).2 = false ∧
      (processIds cfg meta (fun _ => false) effTotal ids st).1.meta_requests =
        st.meta_requests ++ visitedUntil cfg meta (n - st.total_threads) ids ∧
      (processIds cfg meta (fun _ => false) effTotal ids st).1.total_threads =
        st.total_threads + min (n - st.total_threads) (includedCount cfg meta ids) := by
  induction ids with
  | nil =>
    intro st hst
    simp [processIds, visitedUntil, includedCount]
  | cons tid ids ih =>
    intro st hst
    rw [processIds]
    rw [if_neg (by simp)]
    cases hm : meta tid with
    | none =>
      have := hmeta tid
      rw [hm] at this
      simp at this
    | some raw =>
      dsimp only
      cases hg : get_thread_metadata tid raw with
      | none =>
        have hi : includeTest cfg meta tid = false := by
          simp [includeTest, hm, hg]
        obtain ⟨e1, e2, e3⟩ :=
          ih { st with clock := st.clock + 1, meta_requests := st.meta_requests ++ [tid] } hst
        refine ⟨e1, e2.trans ?_, e3.trans ?_⟩
        · simp [visitedUntil, hi]
        · simp [includedCount_cons, hi]
      | some md =>
        dsimp only
        by_cases hs : should_include cfg md
        · have hi : includeTest cfg meta tid = true := by
            simp [includeTest, hm, hg, hs]
          rw [if_neg (by simp [hs])]
          rw [hl]
          simp only [limitReached]
          by_cases hfin : n ≤ st.total_threads + 1
          · rw [if_pos (by
              simp only [Bool.and_eq_true, decide_eq_true_eq]
              exact ⟨hn, hfin⟩)]
            refine ⟨rfl, ?_, ?_⟩
            · show st.meta_requests ++ [tid] =
                st.meta_requests ++ visitedUntil cfg meta (n - st.total_threads) (tid :: ids)
              rw [visitedUntil, if_pos hi, if_pos (by omega)]
            · show st.total_threads + 1 =
                st.total_threads + min (n - st.total_threads) (includedCount cfg meta (tid :: ids))
              rw [includedCount_cons, if_pos hi]
              omega
          · rw [if_neg (by
              simp only [Bool.and_eq_true, decide_eq_true_eq, not_and]
              exact fun _ => hfin)]
            have hb : st.total_threads + 1 < n := by omega
            refine ⟨(ih _ ?_).1, ((ih _ ?_).2.1).trans ?_, ((ih _ ?_).2.2).trans ?_⟩
            · exact hb
            · exact hb
            · show (st.meta_requests ++ [tid]) ++
                  visitedUntil cfg meta (n - (st.total_threads + 1)) ids =
                st.meta_requests ++ visitedUntil cfg meta (n - st.total_threads) (tid :: ids)
              rw [visitedUntil, if_pos hi, if_neg (by omega : ¬ n - st.total_threads ≤ 1)]
              have : n - (st.total_threads + 1) = n - st.total_threads - 1 := by omega
              rw [this, List.append_assoc]
              rfl
            · exact hb
            · show (st.total_threads + 1) +
                  min (n - (st.total_threads + 1)) (includedCount cfg meta ids) =
                st.total_threads + min (n - st.total_threads) (includedCount cfg meta (tid :: ids))
              rw [includedCount_cons, if_pos hi]
              omega
        · have hi : includeTest cfg meta tid = false := by
            simp [includeTest, hm, hg, hs]
          rw [if_pos (by simp [hs])]
          obtain ⟨e1, e2, e3⟩ :=
            ih { st with clock := st.clock + 1, meta_requests := st.meta_requests ++ [tid] } hst
          refine ⟨e1, e2.trans ?_, e3.trans ?_⟩
          · simp [visitedUntil, hi]
          · simp [includedCount_cons, hi]

lemma collectPages_limit (cfg : CollectionConfig) (meta : String → Option RawThread)
    (effTotal : Nat) (n : Nat) (hl : cfg.limit = some n) (hn : 0 < n)
    (hmeta : ∀ tid, (meta tid).isSome) :
    ∀ (pages : List (List String)) (st : CollectorState),
      (∀ p ∈ pages, p ≠ []) → st.total_threads < n →
      (collectPages cfg meta (fun _ => false) effTotal (pages.map some) st).meta_requests =
        st.meta_requests ++ visitedUntil cfg meta (n - st.total_threads) pages.flatten ∧
      (collectPages cfg meta (fun _ => false) effTotal (pages.map some) st).total_threads =
        st.total_threads + min (n - st.total_threads) (includedCount cfg meta pages.flatten) := by
  intro pages
  induction pages with
  | nil =>
    intro st hne hst
    simp [collectPages, visitedUntil, includedCount]
  | cons p ps ih =>
    intro st hne hst
    have hpne : p ≠ [] := hne p (List.mem_cons_self p ps)
    rw [List.map_cons, collectPages]
    rw [if_neg (by simp)]
    rw [if_neg (by simpa [List.isEmpty_iff] using hpne)]
    obtain ⟨e1, e2, e3⟩ := processIds_limit cfg meta effTotal n hl hn hmeta p
      { st with clock := st.clock + 1 } hst
    dsimp only at e2 e3
    rw [if_neg (by rw [e1]; simp)]
    rw [hl]
    simp only [limitReached]
    by_cases hge : n - st.total_threads ≤ includedCount cfg meta p
    · rw [if_pos (by
        rw [e3]
        simp only [Bool.and_eq_true, decide_eq_true_eq]
        exact ⟨hn, by omega⟩)]
      constructor
      · rw [e2, List.flatten_cons,
          visitedUntil_append_ge cfg meta p (n - st.total_threads) ps.flatten (by omega) hge]
      · rw [e3, List.flatten_cons, includedCount_append]
        omega
    · have hlt : includedCount cfg meta p < n - st.total_threads := by omega
      rw [if_neg (by
        rw [e3]
        simp only [Bool.and_eq_true, decide_eq_true_eq, not_and]
        intro _
        omega)]
      cases ps with
      | nil =>
        dsimp only [List.map]
        constructor
        · rw [e2]
          simp
        · rw [e3]
          simp
      | cons q ps' =>
        have hb : (processIds cfg meta (fun _ => false) effTotal p
            { st with clock := st.clock + 1 }).1.total_threads < n := by
          rw [e3]
          omega
        obtain ⟨f2, f3⟩ := ih _ (fun x hx => hne x (List.mem_cons_of_mem p hx)) hb
        dsimp only [List.map] at f2 f3 ⊢
        constructor
        · rw [List.flatten_cons,
            visitedUntil_append_lt cfg meta p (n - st.total_threads) _ hlt]
          rw [f2, e2, e3]
          rw [visitedUntil_all cfg meta p _ hlt]
          have hmin : min (n - st.total_threads) (includedCount cfg meta p) =
              includedCount cfg meta p := by omega
          rw [hmin]
          have harith : n - (st.total_threads + includedCount cfg meta p) =
              n - st.total_threads - includedCount cfg meta p := by omega
          rw [harith, List.append_assoc]
        · rw [List.flatten_cons, includedCount_append]
          rw [f3, e3]
          omega

/-- C7: with a positive `limit = n`, an uninterrupted error-free collection
requests metadata exactly for the stream prefix ending at the `n`-th included
conversation (so nothing after it — in the same page or any later page — is
fetched or processed), and `total_threads` counts only conversations that
passed both filters, capped at `n`. -/
theorem collect_limit_counts_included (cfg : CollectionConfig)
    (meta : String → Option RawThread) (totalCount : Nat)
    (pages : List (List String)) (n : Nat)
    (hl : cfg.limit = some n) (hn : 0 < n)
    (hne : ∀ p ∈ pages, p ≠ []) (hmeta : ∀ tid, (meta tid).isSome) :
    (collect cfg meta (fun _ => false) totalCount (pages.map some)).meta_requests =
      visitedUntil cfg meta n pages.flatten ∧
    (collect cfg meta (fun _ => false) totalCount (pages.map some)).total_threads =
      min n (includedCount cfg meta pages.flatten) := by
  obtain ⟨h2, h3⟩ := collectPages_limit cfg meta (effectiveTotal cfg.limit totalCount) n hl hn
    hmeta pages
    (initCollectorState.emitEvent
      (CollectEvent.collection_started (effectiveTotal cfg.limit totalCount) cfg.limit))
    hne hn
  constructor
  · simpa [collect, initCollectorState] using h2
  · simpa [collect, initCollectorState] using h3

/-- Witness for `collect_limit_counts_included`: limit 1 over a two-id page. -/
theorem collect_limit_counts_included_witness :
    (⟨some 1, [], true, none⟩ : CollectionConfig).limit = some 1 ∧
    (0 : Nat) < 1 ∧
    (∀ p ∈ [["t1", "t2"]], p ≠ ([] : List String)) ∧
    (∀ tid : String,
      ((fun _ : String =>
        some (⟨["INBOX"], [⟨["INBOX"], some "a@spam.com", none⟩]⟩ : RawThread)) tid).isSome) ∧
    (collect ⟨some 1, [], true, none⟩
        (fun _ => some ⟨["INBOX"], [⟨["INBOX"], some "a@spam.com", none⟩]⟩)
        (fun _ => false) 2 ([["t1", "t2"]].map some)).meta_requests =
      visitedUntil ⟨some 1, [], true, none⟩
        (fun _ => some ⟨["INBOX"], [⟨["INBOX"], some "a@spam.com", none⟩]⟩) 1
        [["t1", "t2"]].flatten ∧
    (collect ⟨some 1, [], true, none⟩
        (fun _ => some ⟨["INBOX"], [⟨["INBOX"], some "a@spam.com", none⟩]⟩)
        (fun _ => false) 2 ([["t1", "t2"]].map some)).total_threads =
      min 1 (includedCount ⟨some 1, [], true, none⟩
        (fun _ => some ⟨["INBOX"], [⟨["INBOX"], some "a@spam.com", none⟩]⟩)
        [["t1", "t2"]].flatten) := by
  have h := collect_limit_counts_included ⟨some 1, [], true, none⟩
    (fun _ => some ⟨["INBOX"], [⟨["INBOX"], some "a@spam.com", none⟩]⟩) 2
    [["t1", "t2"]] 1 rfl (by decide) (by decide) (fun _ => rfl)
  exact ⟨rfl, by decide, by decide, fun _ => rfl, h.1, h.2⟩

/-! ### Remote failures abort the scan with partial results (claim C8) -/

lemma processIds_no_error (cfg : CollectionConfig) (meta : String → Option RawThread)
    (checkIntr : Nat → Bool) (effTotal : Nat) :
    ∀ (ids : List String) (st : CollectorState),
      (∀ tid ∈ ids, (meta tid).isSome) →
      (processIds cfg meta checkIntr effTotal ids st).2 = false := by
  intro ids
  induction ids with
  | nil => intro st h; rfl
  | cons tid ids ih =>
    intro st h
    rw [processIds]
    by_cases hc : checkIntr st.clock
    · rw [if_pos hc]
    · rw [if_neg hc]
      cases hm : meta tid with
      | none =>
        have := h tid (List.mem_cons_self tid ids)
        rw [hm] at this
        simp at this
      | some raw =>
        dsimp only
        cases hg : get_thread_metadata tid raw with
        | none =>
          exact ih _ (fun x hx => h x (List.mem_cons_of_mem tid hx))
        | some md =>
          dsimp only
          by_cases hs : should_include cfg md
          · rw [if_neg (by simp [hs])]
            split
            · rfl
            · exact ih _ (fun x hx => h x (List.mem_cons_of_mem tid hx))
          · rw [if_pos (by simp [hs])]
            exact ih _ (fun x hx => h x (List.mem_cons_of_mem tid hx))

/-- A run over good pages followed by a failing tail equals the run over the
good pages alone on every index structure and on `total_threads`, and adds
exactly one `error` event. -/
lemma collectPages_error_tail (cfg : CollectionConfig) (meta : String → Option RawThread)
    (effTotal : Nat) (hl : cfg.limit = none)
    (t0 : Option (List String)) (ts : List (Option (List String)))
    (htailE : ∀ st' : CollectorState,
      (collectPages cfg meta (fun _ => false) effTotal (t0 :: ts) st').threads_by_id =
          st'.threads_by_id ∧
      (collectPages cfg meta (fun _ => false) effTotal (t0 :: ts) st').threads_by_domain =
          st'.threads_by_domain ∧
      (collectPages cfg meta (fun _ => false) effTotal (t0 :: ts) st').domain_data =
          st'.domain_data ∧
      (collectPages cfg meta (fun _ => false) effTotal (t0 :: ts) st').total_threads =
          st'.total_threads ∧
      (collectPages cfg meta (fun _ => false) effTotal (t0 :: ts) st').events =
          st'.events ++ [CollectEvent.error]) :
    ∀ (pages : List (List String)) (st : CollectorState),
      (∀ p ∈ pages, p ≠ []) → (∀ tid ∈ pages.flatten, (meta tid).isSome) →
      (collectPages cfg meta (fun _ => false) effTotal
          (pages.map some ++ t0 :: ts) st).threads_by_id =
        (collectPages cfg meta (fun _ => false) effTotal (pages.map some) st).threads_by_id ∧
      (collectPages cfg meta (fun _ => false) effTotal
          (pages.map some ++ t0 :: ts) st).threads_by_domain =
        (collectPages cfg meta (fun _ => false) effTotal
          (pages.map some) st).threads_by_domain ∧
      (collectPages cfg meta (fun _ => false) effTotal
          (pages.map some ++ t0 :: ts) st).domain_data =
        (collectPages cfg meta (fun _ => false) effTotal (pages.map some) st).domain_data ∧
      (collectPages cfg meta (fun _ => false) effTotal
          (pages.map some ++ t0 :: ts) st).total_threads =
        (collectPages cfg meta (fun _ => false) effTotal (pages.map some) st).total_threads ∧
      (collectPages cfg meta (fun _ => false) effTotal
          (pages.map some ++ t0 :: ts) st).events =
        (collectPages cfg meta (fun _ => false) effTotal (pages.map some) st).events ++
          [CollectEvent.error] := by
  intro pages
  induction pages with
  | nil =>
    intro st hne hmeta
    simp only [List.map_nil, List.nil_append]
    obtain ⟨k1, k2, k3, k4, k5⟩ := htailE st
    exact ⟨k1, k2, k3, k4, k5⟩
  | cons p ps ih =>
    intro st hne hmeta
    have hpne : p ≠ [] := hne p (List.mem_cons_self p ps)
    have hpmeta : ∀ tid ∈ p, (meta tid).isSome := by
      intro tid h
      exact hmeta tid (by rw [List.flatten_cons]; exact List.mem_append_left _ h)
    have he := processIds_no_error cfg meta (fun _ => false) effTotal p
      { st with clock := st.clock + 1 } hpmeta
    rw [List.map_cons, List.cons_append, collectPages, collectPages]
    rw [hl]
    simp only [limitReached]
    rw [if_neg (by simp)]
    rw [if_neg (by simpa [List.isEmpty_iff] using hpne)]
    rw [if_neg (by rw [he]; simp)]
    rw [if_neg (by simp)]
    rw [if_neg (by simp)]
    rw [if_neg (by simpa [List.isEmpty_iff] using hpne)]
    rw [if_neg (by rw [he]; simp)]
    rw [if_neg (by simp)]
    cases ps with
    | nil =>
      simp only [List.map_nil, List.nil_append]
      obtain ⟨k1, k2, k3, k4, k5⟩ :=
        htailE (processIds cfg meta (fun _ => false) effTotal p
          { st with clock := st.clock + 1 }).1
      exact ⟨k1, k2, k3, k4, k5⟩
    | cons q ps' =>
      have hne' : ∀ x ∈ q :: ps', x ≠ [] := fun x hx => hne x (List.mem_cons_of_mem p hx)
      have hmeta' : ∀ tid ∈ (q :: ps').flatten, (meta tid).isSome := by
        intro tid h
        exact hmeta tid (by rw [List.flatten_cons]; exact List.mem_append_right _ h)
      have hih := ih (processIds cfg meta (fun _ => false) effTotal p
        { st with clock := st.clock + 1 }).1 hne' hmeta'
      dsimp only [List.map_cons, List.cons_append] at hih ⊢
      exact hih

/-- A failing `threads().list` call (page outcome `none`) emits `error` and
stops, leaving every index structure untouched. -/
lemma errorStop_listing (cfg : CollectionConfig) (meta : String → Option RawThread)
    (effTotal : Nat) (rest : List (Option (List String))) :
    ∀ st' : CollectorState,
      (collectPages cfg meta (fun _ => false) effTotal (none :: rest) st').threads_by_id =
          st'.threads_by_id ∧
      (collectPages cfg meta (fun _ => false) effTotal (none :: rest) st').threads_by_domain =
          st'.threads_by_domain ∧
      (collectPages cfg meta (fun _ => false) effTotal (none :: rest) st').domain_data =
          st'.domain_data ∧
      (collectPages cfg meta (fun _ => false) effTotal (none :: rest) st').total_threads =
          st'.total_threads ∧
      (collectPages cfg meta (fun _ => false) effTotal (none :: rest) st').events =
          st'.events ++ [CollectEvent.error] := by
  intro st'
  rw [collectPages]
  rw [if_neg (by simp)]
  exact ⟨rfl, rfl, rfl, rfl, rfl⟩

/-- A failing `threads().get` metadata call for the first id of a page emits
`error` and stops, leaving every index structure untouched. -/
lemma errorStop_meta (cfg : CollectionConfig) (meta : String → Option RawThread)
    (effTotal : Nat) (badId : String) (more : List String) (hbad : meta badId = none) :
    ∀ st' : CollectorState,
      (collectPages cfg meta (fun _ => false) effTotal [some (badId :: more)]
          st').threads_by_id = st'.threads_by_id ∧
      (collectPages cfg meta (fun _ => false) effTotal [some (badId :: more)]
          st').threads_by_domain = st'.threads_by_domain ∧
      (collectPages cfg meta (fun _ => false) effTotal [some (badId :: more)]
          st').domain_data = st'.domain_data ∧
      (collectPages cfg meta (fun _ => false) effTotal [some (badId :: more)]
          st').total_threads = st'.total_threads ∧
      (collectPages cfg meta (fun _ => false) effTotal [some (badId :: more)]
          st').events = st'.events ++ [CollectEvent.error] := by
  intro st'
  have hres : processIds cfg meta (fun _ => false) effTotal (badId :: more)
      { st' with clock := st'.clock + 1 } =
      ({ st' with clock := st'.clock + 1 + 1, meta_requests := st'.meta_requests ++ [badId] },
        true) := by
    rw [processIds]
    rw [if_neg (by simp)]
    simp [hbad]
  rw [collectPages]
  rw [if_neg (by simp)]
  rw [if_neg (by simp)]
  rw [if_pos (by rw [hres])]
  rw [hres]
  exact ⟨rfl, rfl, rfl, rfl, rfl⟩

lemma build_results_congr (st1 st2 : CollectorState)
    (h1 : st1.domain_data = st2.domain_data)
    (h2 : st1.threads_by_domain = st2.threads_by_domain)
    (h3 : st1.threads_by_id = st2.threads_by_id) :
    build_results st1 = build_results st2 := by
  unfold build_results
  rw [h1, h2, h3]

/-- C8: a remote-request failure — an `HttpError` from the page-listing call
or from a metadata fetch — emits an `error` progress event, aborts the scan,
and the run still ends with exactly the indexes, total and domain map of the
clean run over the pages fully processed before the failure. -/
theorem collect_remote_failure_partial (cfg : CollectionConfig)
    (meta : String → Option RawThread) (totalCount : Nat)
    (pages : List (List String)) (rest : List (Option (List String)))
    (badId : String) (more : List String)
    (hl : cfg.limit = none) (hne : ∀ p ∈ pages, p ≠ [])
    (hmeta : ∀ tid ∈ pages.flatten, (meta tid).isSome) (hbad : meta badId = none) :
    (CollectEvent.error ∈
        (collect cfg meta (fun _ => false) totalCount
          (pages.map some ++ none :: rest)).events ∧
      build_results (collect cfg meta (fun _ => false) totalCount
          (pages.map some ++ none :: rest)) =
        build_results (collect cfg meta (fun _ => false) totalCount (pages.map some)) ∧
      (collect cfg meta (fun _ => false) totalCount
          (pages.map some ++ none :: rest)).total_threads =
        (collect cfg meta (fun _ => false) totalCount (pages.map some)).total_threads) ∧
    (CollectEvent.error ∈
        (collect cfg meta (fun _ => false) totalCount
          (pages.map some ++ [some (badId :: more)])).events ∧
      build_results (collect cfg meta (fun _ => false) totalCount
          (pages.map some ++ [some (badId :: more)])) =
        build_results (collect cfg meta (fun _ => false) totalCount (pages.map some)) ∧
      (collect cfg meta (fun _ => false) totalCount
          (pages.map some ++ [some (badId :: more)])).total_threads =
        (collect cfg meta (fun _ => false) totalCount (pages.map some)).total_threads) := by
  have hA := collectPages_error_tail cfg meta (effectiveTotal cfg.limit totalCount) hl
    none rest (errorStop_listing cfg meta (effectiveTotal cfg.limit totalCount) rest)
    pages
    (initCollectorState.emitEvent
      (CollectEvent.collection_started (effectiveTotal cfg.limit totalCount) cfg.limit))
    hne hmeta
  have hB := collectPages_error_tail cfg meta (effectiveTotal cfg.limit totalCount) hl
    (some (badId :: more)) []
    (errorStop_meta cfg meta (effectiveTotal cfg.limit totalCount) badId more hbad)
    pages
    (initCollectorState.emitEvent
      (CollectEvent.collection_started (effectiveTotal cfg.limit totalCount) cfg.limit))
    hne hmeta
  constructor
  · refine ⟨?_, ?_, ?_⟩
    · have hev : CollectEvent.error ∈
          (collectPages cfg meta (fun _ => false) (effectiveTotal cfg.limit totalCount)
            (pages.map some ++ none :: rest)
            (initCollectorState.emitEvent
              (CollectEvent.collection_started (effectiveTotal cfg.limit totalCount)
                cfg.limit))).events := by
        rw [hA.2.2.2.2]
        exact List.mem_append_right _ (List.mem_singleton_self _)
      exact List.mem_append_left _ hev
    · exact build_results_congr _ _ hA.2.2.1 hA.2.1 hA.1
    · exact hA.2.2.2.1
  · refine ⟨?_, ?_, ?_⟩
    · have hev : CollectEvent.error ∈
          (collectPages cfg meta (fun _ => false) (effectiveTotal cfg.limit totalCount)
            (pages.map some ++ [some (badId :: more)])
            (initCollectorState.emitEvent
              (CollectEvent.collection_started (effectiveTotal cfg.limit totalCount)
                cfg.limit))).events := by
        rw [hB.2.2.2.2]
        exact List.mem_append_right _ (List.mem_singleton_self _)
      exact List.mem_append_left _ hev
    · exact build_results_congr _ _ hB.2.2.1 hB.2.1 hB.1
    · exact hB.2.2.2.1

/-- Witness for `collect_remote_failure_partial`: one good page, then a
failing page listing (scenario A) or a failing metadata fetch (scenario B). -/
theorem collect_remote_failure_partial_witness :
    (⟨none, [], true, none⟩ : CollectionConfig).limit = none ∧
    (∀ p ∈ [["t1"]], p ≠ ([] : List String)) ∧
    (∀ tid ∈ [["t1"]].flatten,
      ((fun tid : String => if tid = "bad" then none
        else some (⟨["INBOX"], [⟨["INBOX"], some "a@spam.com", none⟩]⟩ : RawThread))
        tid).isSome) ∧
    ((fun tid : String => if tid = "bad" then none
        else some (⟨["INBOX"], [⟨["INBOX"], some "a@spam.com", none⟩]⟩ : RawThread))
      "bad" = none) ∧
    CollectEvent.error ∈
      (collect ⟨none, [], true, none⟩
        (fun tid => if tid = "bad" then none
          else some ⟨["INBOX"], [⟨["INBOX"], some "a@spam.com", none⟩]⟩)
        (fun _ => false) 1 ([["t1"]].map some ++ none :: [])).events ∧
    build_results (collect ⟨none, [], true, none⟩
        (fun tid => if tid = "bad" then none
          else some ⟨["INBOX"], [⟨["INBOX"], some "a@spam.com", none⟩]⟩)
        (fun _ => false) 1 ([["t1"]].map some ++ none :: [])) =
      build_results (collect ⟨none, [], true, none⟩
        (fun tid => if tid = "bad" then none
          else some ⟨["INBOX"], [⟨["INBOX"], some "a@spam.com", none⟩]⟩)
        (fun _ => false) 1 ([["t1"]].map some)) ∧
    CollectEvent.error ∈
      (collect ⟨none, [], true, none⟩
        (fun tid => if tid = "bad" then none
          else some ⟨["INBOX"], [⟨["INBOX"], some "a@spam.com", none⟩]⟩)
        (fun _ => false) 1 ([["t1"]].map some ++ [some ("bad" :: [])])).events ∧
    build_results (collect ⟨none, [], true, none⟩
        (fun tid => if tid = "bad" then none
          else some ⟨["INBOX"], [⟨["INBOX"], some "a@spam.com", none⟩]⟩)
        (fun _ => false) 1 ([["t1"]].map some ++ [some ("bad" :: [])])) =
      build_results (collect ⟨none, [], true, none⟩
        (fun tid => if tid = "bad" then none
          else some ⟨["INBOX"], [⟨["INBOX"], some "a@spam.com", none⟩]⟩)
        (fun _ => false) 1 ([["t1"]].map some)) := by
  have h := collect_remote_failure_partial ⟨none, [], true, none⟩
    (fun tid => if tid = "bad" then none
      else some ⟨["INBOX"], [⟨["INBOX"], some "a@spam.com", none⟩]⟩)
    1 [["t1"]] [] "bad" [] rfl (by decide) (by decide) (by decide)
  exact ⟨rfl, by decide, by decide, by decide, h.1.1, h.1.2.1, h.2.1, h.2.2.1⟩

end GmailCleaner
